import Mathlib

/-!
Shallow embedding of the JobDB repository (src/main.py,
src/database/db_manager.py, src/scrapers/base_scraper.py,
src/scrapers/asml_scraper.py, src/scrapers/micron_scraper.py).

Python dictionaries produced by the scrapers and consumed by
`DatabaseManager` are modelled by the structure `JobData`: for each
column-named key the model records whether the key is absent from the
dict, present with value `None`, or present with a value.  Datetimes are
modelled as natural-number codes and every call of `datetime.now()`
becomes an explicit `now : Nat` parameter.  Exceptions are modelled with
`Except PyErr`.  The persisted SQLite table is a list of `Row`s in
insertion order; the commit-time constraint checks of SQLite (NOT NULL on
`job_id`, `company`, `title`; UNIQUE on `job_id`) are the function
`validDB`.
-/

namespace JobDB

/-- State of one key of a Python dict: absent, present with `None`, or
present with a value of type `α`. -/
inductive Field (α : Type) where
  | absent
  | null
  | val (a : α)
  deriving DecidableEq

/-- Embeds Python `dict.get(key)`: an absent key and a key holding `None`
both give `None`. -/
def Field.toOpt {α : Type} : Field α → Option α
  | .absent => none
  | .null => none
  | .val a => some a

/-- Value of a text-column key in an incoming dict: a plain string or a
list of strings (the scrapers may put lists under `department`,
`location`, `degree`, `experience_level`). -/
inductive TextVal where
  | s (str : String)
  | l (items : List String)
  deriving DecidableEq

/-- Value of the `post_date` key in an incoming dict: an ISO string or an
already-built datetime (code). -/
inductive PostVal where
  | iso (str : String)
  | dt (t : Nat)
  deriving DecidableEq

/-- An incoming job dict, with the column-named keys the scrapers
produce (the shape consumed by `DatabaseManager`). -/
structure JobData where
  job_id : Field String := .absent
  company : Field String := .absent
  title : Field String := .absent
  department : Field TextVal := .absent
  location : Field TextVal := .absent
  degree : Field TextVal := .absent
  experience_level : Field TextVal := .absent
  description : Field String := .absent
  post_date : Field PostVal := .absent
  scraped_date : Field Nat := .absent
  url : Field String := .absent
  deriving DecidableEq

/-- The dict returned by `_convert_job_data`: `post_date` has been
normalised to a datetime and the four list-capable text fields to
strings. -/
structure ConvData where
  job_id : Field String
  company : Field String
  title : Field String
  department : Field String
  location : Field String
  degree : Field String
  experience_level : Field String
  description : Field String
  post_date : Field Nat
  scraped_date : Field Nat
  url : Field String
  deriving DecidableEq

/-- One persisted row of the `job_listings` table.  Nullable columns are
`Option`; rows are kept in insertion order in the table model `DB`. -/
structure Row where
  job_id : Option String
  company : Option String
  title : Option String
  department : Option String
  location : Option String
  degree : Option String
  experience_level : Option String
  description : Option String
  post_date : Option Nat
  scraped_date : Option Nat
  url : Option String
  last_updated : Option Nat
  deriving DecidableEq

/-- The persisted table: rows in insertion order. -/
abbrev DB := List Row

/-- Numeric value of two decimal digit characters, `none` on a
non-digit. -/
def digit2 (a b : Char) : Option Nat :=
  if a.isDigit ∧ b.isDigit then
    some ((a.toNat - 48) * 10 + (b.toNat - 48))
  else none

/-- Numeric value of four decimal digit characters, `none` on a
non-digit. -/
def digit4 (a b c d : Char) : Option Nat :=
  if a.isDigit ∧ b.isDigit ∧ c.isDigit ∧ d.isDigit then
    some (((a.toNat - 48) * 10 + (b.toNat - 48)) * 100
          + (c.toNat - 48) * 10 + (d.toNat - 48))
  else none

/-- Range-checked datetime code built from the digit characters of an ISO
string (year, month, day, hour, minute, second). -/
def isoCode (y1 y2 y3 y4 o1 o2 d1 d2 h1 h2 n1 n2 s1 s2 : Char) :
    Option Nat :=
  match digit4 y1 y2 y3 y4, digit2 o1 o2, digit2 d1 d2,
        digit2 h1 h2, digit2 n1 n2, digit2 s1 s2 with
  | some y, some mo, some da, some h, some mi, some se =>
    if 1 ≤ mo ∧ mo ≤ 12 ∧ 1 ≤ da ∧ da ≤ 31 ∧ h ≤ 23 ∧ mi ≤ 59 ∧ se ≤ 59
    then some (((((y * 100 + mo) * 100 + da) * 100 + h) * 100 + mi) * 100 + se)
    else none
  | _, _, _, _, _, _ => none

/-- Embeds `datetime.fromisoformat` on the shapes `YYYY-MM-DD` and
`YYYY-MM-DD?HH:MM:SS` (any one-character separator): returns an injective
datetime code, or `none` where Python raises `ValueError`. -/
def fromisoformat (str : String) : Option Nat :=
  match str.toList with
  | [y1, y2, y3, y4, '-', o1, o2, '-', d1, d2] =>
    isoCode y1 y2 y3 y4 o1 o2 d1 d2 '0' '0' '0' '0' '0' '0'
  | [y1, y2, y3, y4, '-', o1, o2, '-', d1, d2, _,
     h1, h2, ':', n1, n2, ':', s1, s2] =>
    isoCode y1 y2 y3 y4 o1 o2 d1 d2 h1 h2 n1 n2 s1 s2
  | _ => none

/-- Embeds `', '.join(str(item) for item in value)` for list-valued text
fields. -/
def joinList (items : List String) : String :=
  String.intercalate ", " items

/-- Conversion of one text-capable field by `_convert_job_data`: only a
list value is changed (joined); strings, `None` and absent keys pass
through. -/
def convText : Field TextVal → Field String
  | .absent => .absent
  | .null => .null
  | .val (.s str) => .val str
  | .val (.l items) => .val (joinList items)

/-- Conversion of the `post_date` field by `_convert_job_data`: only a
string value is parsed; an unparseable string falls back to
`datetime.now()` (the code comment says "Fallback if date format is
unknown"), and `None`, absent and datetime values pass through. -/
def convPost (now : Nat) : Field PostVal → Field Nat
  | .absent => .absent
  | .null => .null
  | .val (.dt t) => .val t
  | .val (.iso str) =>
    match fromisoformat str with
    | some t => .val t
    | none => .val now

/-- Embeds `DatabaseManager._convert_job_data`: copies the dict,
normalises `post_date` (string → datetime, unparseable → now) and joins
list values of `department`, `location`, `degree`, `experience_level`. -/
def convert_job_data (now : Nat) (d : JobData) : ConvData :=
  { job_id := d.job_id
    company := d.company
    title := d.title
    department := convText d.department
    location := convText d.location
    degree := convText d.degree
    experience_level := convText d.experience_level
    description := d.description
    post_date := convPost now d.post_date
    scraped_date := d.scraped_date
    url := d.url }

/-- Column value of `scraped_date` at INSERT: the column default
`datetime.now()` when the key is absent, NULL when the key holds `None`,
else the supplied value. -/
def scrapedDefault (now : Nat) : Field Nat → Option Nat
  | .absent => some now
  | .null => none
  | .val t => some t

/-- Embeds `JobListing(**job_dict)` followed by its INSERT: keys absent
from the dict take the column default (`scraped_date` and `last_updated`
default to `datetime.now()`, the rest to NULL); a key present with
`None` stores NULL. -/
def mkRow (now : Nat) (c : ConvData) : Row :=
  { job_id := c.job_id.toOpt
    company := c.company.toOpt
    title := c.title.toOpt
    department := c.department.toOpt
    location := c.location.toOpt
    degree := c.degree.toOpt
    experience_level := c.experience_level.toOpt
    description := c.description.toOpt
    post_date := c.post_date.toOpt
    scraped_date := scrapedDefault now c.scraped_date
    url := c.url.toOpt
    last_updated := some now }

/-- Assignment of one dict field onto one column of an existing row, as
in the update loop `for key, value in job_dict.items(): setattr(...)`:
a key absent from the dict leaves the column alone, a key present
(with `None` or a value) overwrites it. -/
def setF {α : Type} : Field α → Option α → Option α
  | .absent, o => o
  | .null, _ => none
  | .val a, _ => some a

/-- Embeds the update branch of `add_or_update_jobs` (and of
`update_job`): every key present in the converted dict overwrites the
matching column — including `scraped_date` when the dict carries it —
and then `last_updated = datetime.now()`. -/
def updateRow (now : Nat) (c : ConvData) (r : Row) : Row :=
  { job_id := setF c.job_id r.job_id
    company := setF c.company r.company
    title := setF c.title r.title
    department := setF c.department r.department
    location := setF c.location r.location
    degree := setF c.degree r.degree
    experience_level := setF c.experience_level r.experience_level
    description := setF c.description r.description
    post_date := setF c.post_date r.post_date
    scraped_date := setF c.scraped_date r.scraped_date
    url := setF c.url r.url
    last_updated := some now }

/-- Applies `updateRow` to the first row whose `job_id` equals `jid`,
as `session.query(JobListing).filter_by(job_id=job_id).first()` picks
the first match. -/
def updFirst (now : Nat) (c : ConvData) (jid : String) : DB → DB
  | [] => []
  | r :: rs =>
    if r.job_id == some jid then updateRow now c r :: rs
    else r :: updFirst now c jid rs

/-- Embeds the loop body of `add_or_update_jobs`: per incoming dict,
`job_id = job_data.get('job_id'); if not job_id: continue`, then convert,
look up by `job_id` alone, and either update the found row (appending to
`existing_jobs`) or add a new row (appending to `new_jobs`).  Returns
(new ids, updated ids, session state). -/
def aouLoop (now : Nat) : List JobData → DB → List String × List String × DB
  | [], db => ([], [], db)
  | d :: rest, db =>
    match d.job_id.toOpt with
    | none => aouLoop now rest db
    | some jid =>
      if jid = "" then aouLoop now rest db
      else
        let c := convert_job_data now d
        if db.any (fun r => r.job_id == some jid) then
          let out := aouLoop now rest (updFirst now c jid db)
          (out.1, jid :: out.2.1, out.2.2)
        else
          let out := aouLoop now rest (db ++ [mkRow now c])
          (jid :: out.1, out.2.1, out.2.2)

/-- SQLite UNIQUE check on the `job_id` column (NULLs are pairwise
distinct for UNIQUE, but `job_id` is also NOT NULL). -/
def uniqueIds : List (Option String) → Bool
  | [] => true
  | none :: rest => uniqueIds rest
  | some s :: rest => !(decide (some s ∈ rest)) && uniqueIds rest

/-- NOT NULL checks of the schema: `job_id`, `company` and `title` are
declared `nullable=False`. -/
def validRow (r : Row) : Bool :=
  r.job_id.isSome && r.company.isSome && r.title.isSome

/-- Commit-time constraint check of the table: NOT NULL columns filled
and `job_id` globally unique. -/
def validDB (db : DB) : Bool :=
  db.all validRow && uniqueIds (db.map Row.job_id)

/-- Python exceptions that the embedded code can raise. -/
inductive PyErr where
  | integrityError
  | valueError (msg : String)
  | attributeError (nm : String)
  | nameError (nm : String)
  | keyError (key : String)
  | indexError
  | httpStatusError
  | connectionError
  | pageScriptEnd
  deriving DecidableEq

/-- Embeds `DatabaseManager.add_or_update_jobs`: runs the loop in one
session and commits; a constraint violation at commit rolls back and
the exception propagates (`except ... rollback; raise`). -/
def add_or_update_jobs (now : Nat) (jobs : List JobData) (db : DB) :
    Except PyErr (List String × List String × DB) :=
  let out := aouLoop now jobs db
  if validDB out.2.2 then .ok out else .error .integrityError

/-- The persisted state a caller observes after `add_or_update_jobs`:
the committed state on success, the unchanged pre-call state after a
rollback. -/
def aouState (now : Nat) (jobs : List JobData) (db : DB) : DB :=
  match add_or_update_jobs now jobs db with
  | .ok out => out.2.2
  | .error _ => db

/-- Embeds `DatabaseManager.add_job`: convert, construct a row, add,
commit (rolling back and raising on a constraint violation). -/
def add_job (now : Nat) (d : JobData) (db : DB) : Except PyErr DB :=
  let r := mkRow now (convert_job_data now d)
  if validDB (db ++ [r]) then .ok (db ++ [r]) else .error .integrityError

/-- Embeds `DatabaseManager.update_job`: look up by `job_id`; a miss
raises `ValueError`; otherwise overwrite the columns present in the
dict, set `last_updated = datetime.now()` and commit. -/
def update_job (now : Nat) (jid : String) (d : JobData) (db : DB) :
    Except PyErr DB :=
  if db.any (fun r => r.job_id == some jid) then
    let db' := updFirst now (convert_job_data now d) jid db
    if validDB db' then .ok db' else .error .integrityError
  else .error (.valueError "not found")

/-- Statistics record that `get_stats` is documented to return. -/
structure Stats where
  total_jobs : Nat
  companies : List (Option String × Nat)
  newest_job_date : Option Nat
  deriving DecidableEq

/-- Embeds `DatabaseManager.get_stats`: the module imports only
`create_engine, Column, String, DateTime, Integer, Text, inspect` from
sqlalchemy, so the name `func` in `func.count(JobListing.id)` is unbound
and every call raises `NameError` before touching the database. -/
def get_stats (_db : DB) : Except PyErr Stats :=
  .error (.nameError "func")

/-- Embeds the call `db_manager.mark_inactive_jobs(company, job_ids)`
made by `run_scraper` in src/main.py: `DatabaseManager` defines no such
method (and the table has no activity column), so the attribute lookup
raises `AttributeError`. -/
def mark_inactive_jobs (_company : String) (_jobIds : List (Option String))
    (_db : DB) : Except PyErr (List Row × DB) :=
  .error (.attributeError "mark_inactive_jobs")

/-- Embeds `job_ids = [job["job_id"] for job in jobs]` in `run_scraper`:
subscripting raises `KeyError` when the key is absent; a key holding
`None` contributes `None` to the list. -/
def jobIdsOf : List JobData → Except PyErr (List (Option String))
  | [] => .ok []
  | d :: rest =>
    match d.job_id with
    | .absent => .error (.keyError "job_id")
    | .null => (jobIdsOf rest).map (fun l => none :: l)
    | .val s => (jobIdsOf rest).map (fun l => some s :: l)

/-- Embeds `run_scraper` from src/main.py: scrape, collect ids, upsert,
then call `mark_inactive_jobs`; any exception inside the `try` is caught,
logged and `[]` returned.  The scrape outcome is passed in as data; the
second component of the result is the durable store state the caller is
left with. -/
def run_scraper (company : String) (now : Nat)
    (scraped : Except PyErr (List JobData)) (db : DB) :
    List String × DB :=
  match scraped with
  | .error _ => ([], db)
  | .ok jobs =>
    match jobIdsOf jobs with
    | .error _ => ([], db)
    | .ok jids =>
      match add_or_update_jobs now jobs db with
      | .error _ => ([], db)
      | .ok (newJobs, _updatedJobs, db') =>
        match mark_inactive_jobs company jids db' with
        | .error _ => ([], db')
        | .ok (_inactive, db'') => (newJobs, db'')

/-! ### Scraper embeddings (src/scrapers/asml_scraper.py,
src/scrapers/micron_scraper.py)

Each page the `while has_more` loop fetches is one entry of a response
script `List ...Resp`; the loop consumes one entry per iteration.  The
sentinel error `PyErr.pageScriptEnd` marks a run that would request a
page beyond the script; the theorems only concern runs decided within
the script. -/

/-- The first widget of an ASML response as the code accesses it inside
the inner `try`: `data["total_item"]` and `data["content"]` raise
`KeyError` when absent; each raw job is its `"name"` value (or an absent
key). -/
structure AsmlWidget where
  total_item : Option Nat
  content : Option (List (Option String))
  deriving DecidableEq

/-- The JSON body of an ASML response: `response.json()["widgets"]`
raises `KeyError` when the key is absent and `[0]` raises `IndexError`
on an empty list — both outside any handler. -/
structure AsmlJson where
  widgets : Option (List AsmlWidget)
  deriving DecidableEq

/-- Outcome of one `requests.post` in the ASML loop: a non-2xx status
(raised by `raise_for_status`, caught as `HTTPError`), a transport
failure such as `ConnectionError` (not an `HTTPError`, so not caught),
or a body. -/
inductive AsmlResp where
  | httpError
  | connError
  | ok (body : AsmlJson)
  deriving DecidableEq

/-- Embeds the inner `for job in data["content"]` of the ASML loop:
`parse_job(job)` is `job["name"]`, so a record without `"name"` raises
`KeyError`, which the inner handler catches — the records already
appended are kept, the rest of the page is dropped, and the flag says
whether the page was fully parsed. -/
def asmlParsePage (jobs : List String) :
    List (Option String) → List String × Bool
  | [] => (jobs, true)
  | some nm :: rest => asmlParsePage (jobs ++ [nm]) rest
  | none :: _ => (jobs, false)

/-- Embeds the `while has_more` loop of `ASMLScraper.scrape_jobs`
(limit 100): only `requests.exceptions.HTTPError` is caught at page
level (stop, keep collected jobs); a connection error or a body without
`widgets[0]` propagates; a missing `total_item`/`content`/record
`"name"` is caught by the inner handler (stop, keep collected jobs). -/
def asmlLoop : List AsmlResp → Nat → List String →
    Except PyErr (List String)
  | [], _, _ => .error .pageScriptEnd
  | resp :: rest, offset, jobs =>
    match resp with
    | .connError => .error .connectionError
    | .httpError => .ok jobs
    | .ok body =>
      match body.widgets with
      | none => .error (.keyError "widgets")
      | some [] => .error .indexError
      | some (w :: _) =>
        match w.total_item with
        | none => .ok jobs
        | some total =>
          match w.content with
          | none => .ok jobs
          | some raws =>
            let parsed := asmlParsePage jobs raws
            if parsed.2 then
              if offset + 100 ≥ total then .ok parsed.1
              else asmlLoop rest (offset + 100) parsed.1
            else .ok parsed.1

/-- Embeds `ASMLScraper.scrape_jobs` as a whole run over a response
script. -/
def asml_scrape_jobs (script : List AsmlResp) : Except PyErr (List String) :=
  asmlLoop script 0 []

/-- One raw Micron position as `MicronScraper.parse_job` reads it: every
access is a `dict.get` except `job["t_create"]`, which is guarded by
`"t_create" in job`. -/
structure MicronRaw where
  t_create : Field Int := .absent
  ats_job_id : Field String := .absent
  internal_id : Field String := .absent
  nm : Field String := .absent
  department : Field String := .absent
  location : Field String := .absent
  job_description : Field String := .absent
  canonicalPositionUrl : Field String := .absent
  deriving DecidableEq

/-- Embeds `datetime.fromtimestamp` on epoch seconds: defined on the
platform-representable range (year 1 through year 9999), raising
(`OSError`/`OverflowError`) outside it; the result is an injective
datetime code. -/
def fromtimestamp (t : Int) : Option Nat :=
  if -62135596800 ≤ t ∧ t ≤ 253402300799 then
    some (t + 62135596800).toNat
  else none

/-- Embeds Python `a or b` over two `dict.get` results (`None` and the
empty string are falsy). -/
def orGet (a b : Field String) : Field String :=
  match a.toOpt with
  | some s =>
    if s = "" then
      match b.toOpt with
      | some s2 => .val s2
      | none => .null
    else .val s
  | none =>
    match b.toOpt with
    | some s2 => .val s2
    | none => .null

/-- Embeds `MicronScraper.parse_job`: `post_date` is
`datetime.fromtimestamp(job["t_create"])` when the key exists and is
truthy, else `None`; any exception in that conversion is caught and
yields `None`; `job_id` is `job.get("ats_job_id") or job.get("id")`; the
remaining fields are plain `get`s, constants, or `datetime.now()`. -/
def micron_parse_job (now : Nat) (j : MicronRaw) : JobData :=
  let post : Field PostVal :=
    match j.t_create with
    | .val t =>
      if t = 0 then .null
      else
        match fromtimestamp t with
        | some code => .val (.dt code)
        | none => .null
    | _ => .null
  { job_id := orGet j.ats_job_id j.internal_id
    company := .val "Micron"
    title :=
      match j.nm.toOpt with
      | some s => .val s
      | none => .null
    department :=
      match j.department.toOpt with
      | some s => .val (.s s)
      | none => .null
    location :=
      match j.location.toOpt with
      | some s => .val (.s s)
      | none => .null
    degree := .null
    experience_level := .null
    description :=
      match j.job_description.toOpt with
      | some s => .val s
      | none => .null
    post_date := post
    scraped_date := .val now
    url :=
      match j.canonicalPositionUrl.toOpt with
      | some s => .val s
      | none => .null }

/-- Outcome of one `requests.get` in the Micron loop: an HTTP status
error (caught), any other exception (also caught, by
`except Exception`), or a JSON body read with `data.get("count", 0)`
and `data.get("positions", [])`. -/
inductive MicronResp where
  | httpError
  | exnError
  | ok (count : Option Nat) (positions : Option (List MicronRaw))
  deriving DecidableEq

/-- Embeds the `while has_more` loop of `MicronScraper.scrape_jobs`
(limit 10): both handlers catch their exception, log and stop the loop,
returning everything collected so far; every position of a good page is
parsed and appended. -/
def micronLoop (now : Nat) : List MicronResp → Nat → List JobData →
    Except PyErr (List JobData)
  | [], _, _ => .error .pageScriptEnd
  | resp :: rest, offset, jobs =>
    match resp with
    | .httpError => .ok jobs
    | .exnError => .ok jobs
    | .ok count positions =>
      let jobs' := jobs ++ (positions.getD []).map (micron_parse_job now)
      if offset + 10 ≥ count.getD 0 then .ok jobs'
      else micronLoop now rest (offset + 10) jobs'

/-- Embeds `MicronScraper.scrape_jobs` as a whole run over a response
script. -/
def micron_scrape_jobs (now : Nat) (script : List MicronResp) :
    Except PyErr (List JobData) :=
  micronLoop now script 0 []

/-! ### Derived notions and sample data used by the theorems -/

/-- The job ids the upsert loop actually processes: ids that are present,
not `None` and not empty (the loop skips the rest via
`if not job_id: continue`). -/
def truthyIds (jobs : List JobData) : List String :=
  jobs.filterMap (fun d =>
    match d.job_id.toOpt with
    | some jid => if jid = "" then none else some jid
    | none => none)

/-- One store operation, for reasoning about arbitrary operation
sequences against the `DatabaseManager`. -/
inductive Op where
  | addJob (now : Nat) (d : JobData)
  | updJob (now : Nat) (jid : String) (d : JobData)
  | upsert (now : Nat) (jobs : List JobData)

/-- The persisted state left by one operation: the committed state on
success, the rolled-back (unchanged) state when the operation raises. -/
def runOp (db : DB) : Op → DB
  | .addJob now d =>
    match add_job now d db with
    | .ok db' => db'
    | .error _ => db
  | .updJob now jid d =>
    match update_job now jid d db with
    | .ok db' => db'
    | .error _ => db
  | .upsert now jobs => aouState now jobs db

/-- The persisted state after a sequence of store operations. -/
def runOps (ops : List Op) (db : DB) : DB :=
  ops.foldl runOp db

/-- Sample listing of employer `A` with external id `1`. -/
def jdA : JobData := { job_id := .val "1", company := .val "A", title := .val "X" }

/-- Sample listing of employer `B` carrying the same external id `1`. -/
def jdB : JobData := { job_id := .val "1", company := .val "B", title := .val "Y" }

/-- Sample listing whose required `title` is missing, so that committing
it violates the NOT NULL constraint. -/
def jdBad : JobData := { job_id := .val "2", company := .val "A" }

/-- Sample listing whose `post_date` string `datetime.fromisoformat`
rejects. -/
def jdIso : JobData :=
  { job_id := .val "7", company := .val "A", title := .val "T",
    post_date := .val (.iso "not-a-date") }

/-- Sample listing carrying an explicit `scraped_date` of `1`. -/
def jdScr1 : JobData :=
  { job_id := .val "6", company := .val "A", title := .val "T",
    scraped_date := .val 1 }

/-- Sample listing with the same id carrying `scraped_date` `2`. -/
def jdScr2 : JobData :=
  { job_id := .val "6", company := .val "A", title := .val "T",
    scraped_date := .val 2 }

/-- The row persisted by upserting `jdA` into an empty store at time 1. -/
def rowA : Row :=
  { job_id := some "1", company := some "A", title := some "X",
    department := none, location := none, degree := none,
    experience_level := none, description := none, post_date := none,
    scraped_date := some 1, url := none, last_updated := some 1 }

/-- The same row after `jdB` is upserted at time 2: employer and title
overwritten, `scraped_date` kept, `last_updated` bumped. -/
def rowAB : Row :=
  { job_id := some "1", company := some "B", title := some "Y",
    department := none, location := none, degree := none,
    experience_level := none, description := none, post_date := none,
    scraped_date := some 1, url := none, last_updated := some 2 }

/-- An ASML page whose first widget reports 1000 jobs and whose content
holds a good record, a record without `"name"`, and another good
record. -/
def asmlBadPage : AsmlResp :=
  .ok { widgets := some [{ total_item := some 1000,
                           content := some [some "a", none, some "b"] }] }

/-- A sample operation sequence: a successful upsert, a failed insert
(missing `title`), and an upsert that collides on the external id. -/
def sampleOps : List Op :=
  [Op.upsert 1 [jdA], Op.addJob 2 jdBad, Op.upsert 3 [jdB]]

/-- A Micron raw record whose `t_create` is outside the range
`datetime.fromtimestamp` accepts. -/
def micronHugeTs : MicronRaw := { t_create := Field.val 999999999999999 }

/-! ### Theorems -/

/-! #### Helper lemmas about the upsert loop -/

theorem toOpt_val {α : Type} {f : Field α} {a : α} (h : f.toOpt = some a) :
    f = Field.val a := by
  cases f with
  | absent => simp [Field.toOpt] at h
  | null => simp [Field.toOpt] at h
  | val b => simp [Field.toOpt] at h; rw [h]

theorem aouLoop_cons_skip {now : Nat} {d : JobData} {rest : List JobData}
    {db : DB} (h : d.job_id.toOpt = none ∨ d.job_id.toOpt = some "") :
    aouLoop now (d :: rest) db = aouLoop now rest db := by
  rcases h with h | h <;> simp [aouLoop, h]

theorem aouLoop_cons_update {now : Nat} {d : JobData} {rest : List JobData}
    {db : DB} {jid : String} (hjo : d.job_id.toOpt = some jid)
    (hne : jid ≠ "")
    (hany : db.any (fun r => r.job_id == some jid) = true) :
    aouLoop now (d :: rest) db =
      ((aouLoop now rest (updFirst now (convert_job_data now d) jid db)).1,
       jid ::
         (aouLoop now rest (updFirst now (convert_job_data now d) jid db)).2.1,
       (aouLoop now rest (updFirst now (convert_job_data now d) jid db)).2.2) := by
  simp [aouLoop, hjo, hne, hany]

theorem aouLoop_cons_insert {now : Nat} {d : JobData} {rest : List JobData}
    {db : DB} {jid : String} (hjo : d.job_id.toOpt = some jid)
    (hne : jid ≠ "")
    (hany : db.any (fun r => r.job_id == some jid) = false) :
    aouLoop now (d :: rest) db =
      (jid ::
         (aouLoop now rest
           (db ++ [mkRow now (convert_job_data now d)])).1,
       (aouLoop now rest (db ++ [mkRow now (convert_job_data now d)])).2.1,
       (aouLoop now rest (db ++ [mkRow now (convert_job_data now d)])).2.2) := by
  simp [aouLoop, hjo, hne, hany]

theorem truthyIds_cons_skip {d : JobData} {rest : List JobData}
    (h : d.job_id.toOpt = none ∨ d.job_id.toOpt = some "") :
    truthyIds (d :: rest) = truthyIds rest := by
  rcases h with h | h <;> simp [truthyIds, List.filterMap_cons, h]

theorem truthyIds_cons {d : JobData} {rest : List JobData} {jid : String}
    (hjo : d.job_id.toOpt = some jid) (hne : jid ≠ "") :
    truthyIds (d :: rest) = jid :: truthyIds rest := by
  simp [truthyIds, List.filterMap_cons, hjo, hne]

theorem mem_updFirst {now : Nat} {c : ConvData} {jid : String} :
    ∀ {db : DB} {r' : Row}, r' ∈ updFirst now c jid db →
      r' ∈ db ∨ ∃ r ∈ db, r.job_id = some jid ∧ r' = updateRow now c r := by
  intro db
  induction db with
  | nil => intro r' h; simp [updFirst] at h
  | cons a rest ih =>
    intro r' h
    by_cases ha : a.job_id = some jid
    · simp only [updFirst, ha, beq_self_eq_true, if_true] at h
      rcases List.mem_cons.mp h with h | h
      · exact Or.inr ⟨a, List.mem_cons_self a rest, ha, h⟩
      · exact Or.inl (List.mem_cons_of_mem a h)
    · have hb : (a.job_id == some jid) = false := by
        simp [ha]
      simp only [updFirst, hb, Bool.false_eq_true, if_false] at h
      rcases List.mem_cons.mp h with h | h
      · exact Or.inl (by simp [h])
      · rcases ih h with h' | ⟨r, hr, hrid, heq⟩
        · exact Or.inl (List.mem_cons_of_mem a h')
        · exact Or.inr ⟨r, List.mem_cons_of_mem a hr, hrid, heq⟩

theorem presence_updFirst {now : Nat} {c : ConvData} {jid2 : String}
    (hc : c.job_id = Field.val jid2) :
    ∀ {db : DB} {jid : String}, (∃ r ∈ db, r.job_id = some jid) →
      ∃ r ∈ updFirst now c jid2 db, r.job_id = some jid := by
  intro db
  induction db with
  | nil => intro jid h; simp at h
  | cons a rest ih =>
    intro jid h
    obtain ⟨r, hr, hid⟩ := h
    by_cases ha : a.job_id = some jid2
    · rcases List.mem_cons.mp hr with rfl | htl
      · have hjj : jid2 = jid := by
          rw [ha] at hid; exact Option.some.inj hid
        refine ⟨updateRow now c r, ?_, ?_⟩
        · simp [updFirst, ha]
        · simp [updateRow, hc, setF, hjj]
      · refine ⟨r, ?_, hid⟩
        simp only [updFirst, ha, beq_self_eq_true, if_true]
        exact List.mem_cons_of_mem _ htl
    · have hb : (a.job_id == some jid2) = false := by simp [ha]
      rcases List.mem_cons.mp hr with rfl | htl
      · refine ⟨r, ?_, hid⟩
        simp only [updFirst, hb, Bool.false_eq_true, if_false]
        exact List.mem_cons_self _ _
      · obtain ⟨r2, hr2, hid2⟩ := ih ⟨r, htl, hid⟩
        refine ⟨r2, ?_, hid2⟩
        simp only [updFirst, hb, Bool.false_eq_true, if_false]
        exact List.mem_cons_of_mem _ hr2

theorem presence_aouLoop (now : Nat) :
    ∀ (jobs : List JobData) (db : DB) (jid : String),
      jid ∈ truthyIds jobs ∨ (∃ r ∈ db, r.job_id = some jid) →
      ∃ r ∈ (aouLoop now jobs db).2.2, r.job_id = some jid := by
  intro jobs
  induction jobs with
  | nil =>
    intro db jid h
    rcases h with h | h
    · simp [truthyIds] at h
    · exact h
  | cons d rest ih =>
    intro db jid h
    cases hjo : d.job_id.toOpt with
    | none =>
      rw [aouLoop_cons_skip (Or.inl hjo)]
      rw [truthyIds_cons_skip (Or.inl hjo)] at h
      exact ih db jid h
    | some jid0 =>
      by_cases hne : jid0 = ""
      · subst hne
        rw [aouLoop_cons_skip (Or.inr hjo)]
        rw [truthyIds_cons_skip (Or.inr hjo)] at h
        exact ih db jid h
      · have hdid : d.job_id = Field.val jid0 := toOpt_val hjo
        have hcid : (convert_job_data now d).job_id = Field.val jid0 := hdid
        rw [truthyIds_cons hjo hne] at h
        by_cases hany : db.any (fun r => r.job_id == some jid0) = true
        · rw [aouLoop_cons_update hjo hne hany]
          have hpres : ∃ r ∈ db, r.job_id = some jid0 := by
            obtain ⟨r, hr, hb⟩ := List.any_eq_true.mp hany
            exact ⟨r, hr, by simpa using hb⟩
          rcases h with h | h
          · rcases List.mem_cons.mp h with rfl | h
            · exact ih _ jid (Or.inr (presence_updFirst hcid hpres))
            · exact ih _ jid (Or.inl h)
          · exact ih _ jid (Or.inr (presence_updFirst hcid h))
        · rw [aouLoop_cons_insert hjo hne (by simpa using hany)]
          have hmk : (mkRow now (convert_job_data now d)).job_id = some jid0 := by
            simp [mkRow, hcid, Field.toOpt]
          rcases h with h | h
          · rcases List.mem_cons.mp h with rfl | h
            · refine ih _ jid (Or.inr ⟨mkRow now (convert_job_data now d), ?_, hmk⟩)
              simp
            · exact ih _ jid (Or.inl h)
          · obtain ⟨r, hr, hid⟩ := h
            exact ih _ jid (Or.inr ⟨r, by simp [hr], hid⟩)

theorem aouState_cases (now : Nat) (jobs : List JobData) (db : DB) :
    aouState now jobs db = (aouLoop now jobs db).2.2 ∨
    aouState now jobs db = db := by
  by_cases h : validDB (aouLoop now jobs db).2.2 = true
  · left; simp [aouState, add_or_update_jobs, h]
  · right; simp [aouState, add_or_update_jobs, h]

theorem aou_ok_state {now : Nat} {jobs : List JobData} {db : DB}
    {n u : List String} {db' : DB}
    (h : add_or_update_jobs now jobs db = Except.ok (n, u, db')) :
    db' = (aouLoop now jobs db).2.2 ∧ validDB db' = true := by
  by_cases hv : validDB (aouLoop now jobs db).2.2 = true
  · have he : add_or_update_jobs now jobs db =
        Except.ok (aouLoop now jobs db) := by
      simp [add_or_update_jobs, hv]
    rw [he, Except.ok.injEq] at h
    rw [h] at hv
    exact ⟨by rw [h], hv⟩
  · have he : add_or_update_jobs now jobs db =
        Except.error PyErr.integrityError := by
      simp [add_or_update_jobs, hv]
    rw [he] at h
    exact absurd h (by simp)

theorem scraped_origin (now : Nat) :
    ∀ (jobs : List JobData) (db : DB),
      (∀ d ∈ jobs, d.scraped_date = Field.absent) →
      ∀ r' ∈ (aouLoop now jobs db).2.2,
        (∃ r ∈ db, r.job_id = r'.job_id ∧ r.scraped_date = r'.scraped_date) ∨
        r'.scraped_date = some now := by
  intro jobs
  induction jobs with
  | nil =>
    intro db _ r' hr'
    exact Or.inl ⟨r', hr', rfl, rfl⟩
  | cons d rest ih =>
    intro db h r' hr'
    have hd : d.scraped_date = Field.absent := h d (List.mem_cons_self d rest)
    have hrest : ∀ d' ∈ rest, d'.scraped_date = Field.absent :=
      fun d' hm => h d' (List.mem_cons_of_mem d hm)
    cases hjo : d.job_id.toOpt with
    | none =>
      rw [aouLoop_cons_skip (Or.inl hjo)] at hr'
      exact ih db hrest r' hr'
    | some jid0 =>
      by_cases hne : jid0 = ""
      · subst hne
        rw [aouLoop_cons_skip (Or.inr hjo)] at hr'
        exact ih db hrest r' hr'
      · have hdid : d.job_id = Field.val jid0 := toOpt_val hjo
        have hcscr : (convert_job_data now d).scraped_date = Field.absent := hd
        by_cases hany : db.any (fun r => r.job_id == some jid0) = true
        · rw [aouLoop_cons_update hjo hne hany] at hr'
          rcases ih _ hrest r' hr' with ⟨r, hrm, hrid, hrscr⟩ | hnow
          · rcases mem_updFirst hrm with hin | ⟨r0, h0m, h0id, rfl⟩
            · exact Or.inl ⟨r, hin, hrid, hrscr⟩
            · refine Or.inl ⟨r0, h0m, ?_, ?_⟩
              · rw [← hrid]
                simp [updateRow, convert_job_data, hdid, setF, h0id]
              · rw [← hrscr]
                simp [updateRow, hcscr, setF]
          · exact Or.inr hnow
        · rw [aouLoop_cons_insert hjo hne (by simpa using hany)] at hr'
          rcases ih _ hrest r' hr' with ⟨r, hrm, hrid, hrscr⟩ | hnow
          · rcases List.mem_append.mp hrm with hin | hmk
            · exact Or.inl ⟨r, hin, hrid, hrscr⟩
            · refine Or.inr ?_
              rw [← hrscr]
              have : r = mkRow now (convert_job_data now d) := by
                simpa using hmk
              rw [this]
              simp [mkRow, hcscr, scrapedDefault]
          · exact Or.inr hnow

theorem last_updated_origin (now : Nat) :
    ∀ (jobs : List JobData) (db : DB),
      ∀ r' ∈ (aouLoop now jobs db).2.2,
        (∃ r ∈ db, r.last_updated = r'.last_updated) ∨
        r'.last_updated = some now := by
  intro jobs
  induction jobs with
  | nil =>
    intro db r' hr'
    exact Or.inl ⟨r', hr', rfl⟩
  | cons d rest ih =>
    intro db r' hr'
    cases hjo : d.job_id.toOpt with
    | none =>
      rw [aouLoop_cons_skip (Or.inl hjo)] at hr'
      exact ih db r' hr'
    | some jid0 =>
      by_cases hne : jid0 = ""
      · subst hne
        rw [aouLoop_cons_skip (Or.inr hjo)] at hr'
        exact ih db r' hr'
      · by_cases hany : db.any (fun r => r.job_id == some jid0) = true
        · rw [aouLoop_cons_update hjo hne hany] at hr'
          rcases ih _ r' hr' with ⟨r, hrm, hrl⟩ | hnow
          · rcases mem_updFirst hrm with hin | ⟨r0, _, _, rfl⟩
            · exact Or.inl ⟨r, hin, hrl⟩
            · refine Or.inr ?_
              rw [← hrl]
              simp [updateRow]
          · exact Or.inr hnow
        · rw [aouLoop_cons_insert hjo hne (by simpa using hany)] at hr'
          rcases ih _ r' hr' with ⟨r, hrm, hrl⟩ | hnow
          · rcases List.mem_append.mp hrm with hin | hmk
            · exact Or.inl ⟨r, hin, hrl⟩
            · refine Or.inr ?_
              rw [← hrl]
              have : r = mkRow now (convert_job_data now d) := by simpa using hmk
              rw [this]
              simp [mkRow]
          · exact Or.inr hnow

theorem validDB_pairwise :
    ∀ db : DB, validDB db = true →
      db.Pairwise (fun r s => r.job_id ≠ s.job_id) := by
  intro db
  induction db with
  | nil => intro _; exact List.Pairwise.nil
  | cons a rest ih =>
    intro h
    unfold validDB at h
    rw [Bool.and_eq_true] at h
    obtain ⟨hall, huniq⟩ := h
    rw [List.all_cons, Bool.and_eq_true] at hall
    obtain ⟨hra, hallr⟩ := hall
    have hsome : a.job_id.isSome = true := by
      unfold validRow at hra
      rw [Bool.and_eq_true, Bool.and_eq_true] at hra
      exact hra.1.1
    obtain ⟨s, hs⟩ := Option.isSome_iff_exists.mp hsome
    rw [List.map_cons, hs] at huniq
    simp only [uniqueIds, Bool.and_eq_true, Bool.not_eq_true',
      decide_eq_false_iff_not] at huniq
    obtain ⟨hnm, huniq'⟩ := huniq
    refine List.Pairwise.cons ?_ (ih ?_)
    · intro b hb heq
      exact hnm (by rw [← hs, heq]; exact List.mem_map_of_mem Row.job_id hb)
    · unfold validDB
      rw [Bool.and_eq_true]
      exact ⟨hallr, huniq'⟩

theorem valid_runOp (db : DB) (op : Op) (h : validDB db = true) :
    validDB (runOp db op) = true := by
  cases op with
  | addJob now d =>
    by_cases hv : validDB (db ++ [mkRow now (convert_job_data now d)]) = true
    · simp [runOp, add_job, hv]
    · simp [runOp, add_job, hv, h]
  | updJob now jid d =>
    by_cases hex : db.any (fun r => r.job_id == some jid) = true
    · by_cases hv : validDB (updFirst now (convert_job_data now d) jid db) = true
      · simp [runOp, update_job, hex, hv]
      · simp [runOp, update_job, hex, hv, h]
    · simp [runOp, update_job, hex, h]
  | upsert now jobs =>
    by_cases hv : validDB (aouLoop now jobs db).2.2 = true
    · simp [runOp, aouState, add_or_update_jobs, hv]
    · simp [runOp, aouState, add_or_update_jobs, hv, h]

/-- C1.  The reconciliation claim fails because the code it names does
not exist: `DatabaseManager` defines no `mark_inactive_jobs` method and
the table has no activity column, so the call in `run_scraper` raises
`AttributeError` on every pass; `run_scraper` catches it and returns the
empty new-jobs list, and no record is ever retired. -/
theorem run_scraper_retire_step_always_raises :
    (∀ company now scraped db, (run_scraper company now scraped db).1 = []) ∧
    (∀ company jids db,
      mark_inactive_jobs company jids db =
        Except.error (PyErr.attributeError "mark_inactive_jobs")) := by
  refine ⟨?_, fun _ _ _ => rfl⟩
  intro company now scraped db
  unfold run_scraper
  cases scraped with
  | error e => rfl
  | ok jobs =>
    cases hj : jobIdsOf jobs with
    | error e => simp [hj]
    | ok jids =>
      cases ha : add_or_update_jobs now jobs db with
      | error e => simp [hj, ha]
      | ok out =>
        obtain ⟨n, u, db'⟩ := out
        simp [hj, ha, mark_inactive_jobs]

/-- C9.  `get_stats` never returns statistics: the module imports of
src/database/db_manager.py do not bind `func`, so every call raises
`NameError` instead of returning the documented record. -/
theorem get_stats_always_raises_name_error :
    ∀ db : DB, get_stats db = Except.error (PyErr.nameError "func") :=
  fun _ => rfl

/-- C10.  An entry whose `job_id` key is absent, `None` or empty is
silently skipped by `add_or_update_jobs`: the call behaves exactly as if
the entry were not in the batch — no insert, no update, no id in either
returned list, no failure. -/
theorem aou_skips_falsy_job_id (now : Nat) (d : JobData)
    (rest : List JobData) (db : DB)
    (h : d.job_id = Field.absent ∨ d.job_id = Field.null ∨
         d.job_id = Field.val "") :
    add_or_update_jobs now (d :: rest) db = add_or_update_jobs now rest db := by
  have hl : aouLoop now (d :: rest) db = aouLoop now rest db := by
    rcases h with h | h | h <;> simp [aouLoop, h, Field.toOpt]
  simp [add_or_update_jobs, hl]

/-- Witness for C10 at concrete inputs: an entry with `job_id = None`
in front of a good entry changes nothing. -/
theorem aou_skips_falsy_job_id_witness :
    add_or_update_jobs 1 [{ job_id := Field.null }, jdA] [] =
      add_or_update_jobs 1 [jdA] [] :=
  aou_skips_falsy_job_id 1 _ [jdA] [] (Or.inr (Or.inl rfl))

/-- C2 counterexample.  The upsert lookup ignores the employer: with the
store holding only employer `A`'s record for external id `1` (so the
natural key `(B, "1")` is not persisted), upserting employer `B`'s
listing with the same external id inserts nothing (`new_ids = []`);
instead it captures employer `A`'s row, overwriting its `company`. -/
theorem upsert_lookup_ignores_employer_counterexample :
    aouState 1 [jdA] [] = [rowA] ∧
    add_or_update_jobs 2 [jdB] [rowA] = Except.ok ([], ["1"], [rowAB]) := by
  exact ⟨by decide, rfl⟩

/-- C4 counterexample.  Records with the same external id under two
different employers cannot coexist: upserting `(A, "1")` and then
`(B, "1")` leaves a single row (employer `B`'s data having replaced
employer `A`'s), and inserting the second record directly via `add_job`
raises `IntegrityError` on the global UNIQUE constraint of `job_id`. -/
theorem same_external_id_cannot_coexist_counterexample :
    aouState 2 [jdB] (aouState 1 [jdA] []) = [rowAB] ∧
    add_job 3 jdB (aouState 1 [jdA] []) =
      Except.error PyErr.integrityError := by
  exact ⟨by decide, rfl⟩

/-- C6 counterexample.  `scraped_date` (the spec's `first_seen_at`) is
not write-once: a second upsert of the same key whose record carries a
`scraped_date` value overwrites the stored one (1 becomes 2). -/
theorem first_seen_overwritten_counterexample :
    (aouState 1 [jdScr1] []).map Row.scraped_date = [some 1] ∧
    (aouState 2 [jdScr2] (aouState 1 [jdScr1] [])).map Row.scraped_date =
      [some 2] := by
  constructor
  · decide
  · decide

/-- C7 counterexample.  An unparseable post-date string is not stored as
NULL: `_convert_job_data` substitutes `datetime.now()` (here the code
99), so the persisted `post_date` is `some 99`, not `none`. -/
theorem unparseable_post_date_not_null_counterexample :
    fromisoformat "not-a-date" = none ∧
    (aouState 99 [jdIso] []).map Row.post_date = [some 99] := by
  constructor
  · decide
  · decide

/-- C3.  One `add_or_update_jobs` call is atomic: if it raises, the
persisted state a caller observes is exactly the pre-call state (the
whole batch rolled back, the error propagated); if it returns, every
listing of the batch that the loop processes (present, non-empty
`job_id`) is persisted in the returned state. -/
theorem upsert_batch_atomic (now : Nat) (jobs : List JobData) (db : DB) :
    (∀ e, add_or_update_jobs now jobs db = Except.error e →
      aouState now jobs db = db) ∧
    (∀ n u db', add_or_update_jobs now jobs db = Except.ok (n, u, db') →
      ∀ jid ∈ truthyIds jobs, ∃ r ∈ db', r.job_id = some jid) := by
  constructor
  · intro e he
    unfold aouState
    rw [he]
  · intro n u db' h jid hjid
    obtain ⟨hdb', _⟩ := aou_ok_state h
    rw [hdb']
    exact presence_aouLoop now jobs db jid (Or.inl hjid)

/-- Witness for C3: a batch whose second record misses the required
`title` raises and leaves the empty store empty; a good batch persists
its listing. -/
theorem upsert_batch_atomic_witness :
    aouState 1 [jdA, jdBad] [] = [] ∧
    ∃ r ∈ [rowA], r.job_id = some "1" := by
  constructor
  · exact (upsert_batch_atomic 1 [jdA, jdBad] []).1 PyErr.integrityError rfl
  · exact (upsert_batch_atomic 1 [jdA] []).2 ["1"] [] [rowA] rfl "1" (by decide)

/-- C4 amended.  After any sequence of store operations starting from a
state satisfying the schema constraints, `job_id` (the external id) is
globally unique across persisted records — uniqueness is not scoped per
employer — and consequently no two records share both employer and
external id. -/
theorem external_id_globally_unique (ops : List Op) (db : DB)
    (h : validDB db = true) :
    validDB (runOps ops db) = true ∧
    (runOps ops db).Pairwise
      (fun r s => ¬(r.company = s.company ∧ r.job_id = s.job_id)) := by
  have hv : ∀ (ops : List Op) (db : DB), validDB db = true →
      validDB (runOps ops db) = true := by
    intro ops
    induction ops with
    | nil => intro db h; exact h
    | cons op rest ih =>
      intro db h
      exact ih (runOp db op) (valid_runOp db op h)
  refine ⟨hv ops db h, ?_⟩
  exact (validDB_pairwise _ (hv ops db h)).imp fun hne hp => hne hp.2

/-- Witness for amended C4 at a concrete operation sequence over the
empty store. -/
theorem external_id_globally_unique_witness :
    validDB (runOps sampleOps []) = true ∧
    (runOps sampleOps []).Pairwise
      (fun r s => ¬(r.company = s.company ∧ r.job_id = s.job_id)) :=
  external_id_globally_unique sampleOps [] (by decide)

/-- C6 amended.  When the incoming records carry no `scraped_date` key
(so the update loop has nothing to overwrite it with), every persisted
row after an upsert either keeps the `scraped_date` of the existing row
with its key, or is a fresh insert stamped `now`; and every row's
`last_updated` stays bounded by the clock (it is either untouched or
set to `now`), so it is non-decreasing run over run. -/
theorem first_seen_stable_when_absent (now : Nat) (jobs : List JobData)
    (db : DB) (hs : ∀ d ∈ jobs, d.scraped_date = Field.absent)
    (hclock : ∀ r ∈ db, ∀ t, r.last_updated = some t → t ≤ now) :
    (∀ r' ∈ aouState now jobs db,
      (∃ r ∈ db, r.job_id = r'.job_id ∧ r.scraped_date = r'.scraped_date) ∨
      r'.scraped_date = some now) ∧
    (∀ r' ∈ aouState now jobs db, ∀ t, r'.last_updated = some t → t ≤ now) := by
  rcases aouState_cases now jobs db with hst | hst
  · rw [hst]
    constructor
    · exact scraped_origin now jobs db hs
    · intro r' hr' t ht
      rcases last_updated_origin now jobs db r' hr' with ⟨r, hrm, hrl⟩ | hnow
      · exact hclock r hrm t (by rw [hrl, ht])
      · rw [hnow] at ht
        exact le_of_eq (Option.some.inj ht).symm
  · rw [hst]
    constructor
    · intro r' hr'
      exact Or.inl ⟨r', hr', rfl, rfl⟩
    · exact hclock

/-- Witness for amended C6: upserting `jdA` again at a later clock keeps
`scraped_date = some 1` (covered by the left disjunct) and keeps
`last_updated` bounded by the clock. -/
theorem first_seen_stable_when_absent_witness :
    (∀ r' ∈ aouState 5 [jdA] [rowA],
      (∃ r ∈ [rowA], r.job_id = r'.job_id ∧
        r.scraped_date = r'.scraped_date) ∨
      r'.scraped_date = some 5) ∧
    (∀ r' ∈ aouState 5 [jdA] [rowA], ∀ t, r'.last_updated = some t →
      t ≤ 5) :=
  first_seen_stable_when_absent 5 [jdA] [rowA] (by decide)
    (by intro r hr t ht; simp at hr; rw [hr] at ht; simp [rowA] at ht; omega)

/-- C8 counterexample.  The ASML adapter does not confine every failure:
a transport error that is not an HTTP status error propagates out of
`scrape_jobs` instead of returning the jobs collected so far; and a
malformed record inside a page is not skipped — it stops the page parse,
dropping the well-formed record after it and ending pagination. -/
theorem asml_failure_escapes_counterexample :
    asml_scrape_jobs [AsmlResp.connError] =
      Except.error PyErr.connectionError ∧
    asml_scrape_jobs [asmlBadPage] = Except.ok ["a"] := by
  exact ⟨rfl, rfl⟩

/-- C7 amended.  Timestamp normalization never raises (both embeddings
are total functions) but its fallback is not uniformly null: a missing
(`absent` or `None`) post-date is stored as NULL; a post-date string
`fromisoformat` rejects is stored as the current time, a substitute
value; parseable values are stored as given; and in the Micron adapter a
missing, falsy or out-of-range epoch `t_create` yields a null post-date
with the exception swallowed. -/
theorem post_date_normalization (now : Nat) (d : JobData) (j : MicronRaw) :
    (d.post_date = Field.absent →
      (mkRow now (convert_job_data now d)).post_date = none) ∧
    (d.post_date = Field.null →
      (mkRow now (convert_job_data now d)).post_date = none) ∧
    (∀ s, d.post_date = Field.val (.iso s) → fromisoformat s = none →
      (mkRow now (convert_job_data now d)).post_date = some now) ∧
    (∀ s t, d.post_date = Field.val (.iso s) → fromisoformat s = some t →
      (mkRow now (convert_job_data now d)).post_date = some t) ∧
    (∀ t, d.post_date = Field.val (.dt t) →
      (mkRow now (convert_job_data now d)).post_date = some t) ∧
    ((j.t_create = Field.absent ∨ j.t_create = Field.null ∨
        j.t_create = Field.val 0) →
      (micron_parse_job now j).post_date = Field.null) ∧
    (∀ t, j.t_create = Field.val t → fromtimestamp t = none →
      (micron_parse_job now j).post_date = Field.null) := by
  refine ⟨?_, ?_, ?_, ?_, ?_, ?_, ?_⟩
  · intro h
    simp [mkRow, convert_job_data, convPost, h, Field.toOpt]
  · intro h
    simp [mkRow, convert_job_data, convPost, h, Field.toOpt]
  · intro s h hiso
    simp [mkRow, convert_job_data, convPost, h, hiso, Field.toOpt]
  · intro s t h hiso
    simp [mkRow, convert_job_data, convPost, h, hiso, Field.toOpt]
  · intro t h
    simp [mkRow, convert_job_data, convPost, h, Field.toOpt]
  · intro h
    rcases h with h | h | h <;> simp [micron_parse_job, h]
  · intro t h hts
    by_cases ht0 : t = 0
    · simp [micron_parse_job, h, ht0]
    · simp [micron_parse_job, h, ht0, hts]

/-- Witness for amended C7: the rejected sample string stores `now`;
Micron's out-of-range epoch yields a null post-date. -/
theorem post_date_normalization_witness :
    (mkRow 99 (convert_job_data 99 jdIso)).post_date = some 99 ∧
    (micron_parse_job 5 micronHugeTs).post_date = Field.null := by
  constructor
  · exact (post_date_normalization 99 jdIso micronHugeTs).2.2.1 "not-a-date"
      rfl (by decide)
  · exact (post_date_normalization 99 jdIso micronHugeTs).2.2.2.2.2.2
      999999999999999 rfl (by decide)

theorem asmlParsePage_malformed :
    ∀ (pre : List String) (jobs : List String) (post : List (Option String)),
      asmlParsePage jobs (pre.map some ++ none :: post) = (jobs ++ pre, false) := by
  intro pre
  induction pre with
  | nil => intro jobs post; simp [asmlParsePage]
  | cons a rest ih =>
    intro jobs post
    have h1 : asmlParsePage jobs ((a :: rest).map some ++ none :: post) =
        asmlParsePage (jobs ++ [a]) (rest.map some ++ none :: post) := rfl
    rw [h1, ih (jobs ++ [a]) post]
    simp

/-- C8 amended.  Per-page failure handling differs between adapters: an
HTTP status error on a Micron or ASML page, or any other exception on a
Micron page, logs and ends pagination returning the jobs already
collected; but on an ASML page a non-HTTP transport error propagates out
of the adapter, and a record missing `"name"` inside an ASML page stops
the page parse keeping only the records before it (the rest of the page
is dropped, not skipped past) and ends pagination. -/
theorem adapter_page_failure_semantics :
    (∀ rest offset jobs,
      asmlLoop (AsmlResp.httpError :: rest) offset jobs = Except.ok jobs) ∧
    (∀ rest offset jobs,
      asmlLoop (AsmlResp.connError :: rest) offset jobs =
        Except.error PyErr.connectionError) ∧
    (∀ now rest offset jobs,
      micronLoop now (MicronResp.httpError :: rest) offset jobs =
        Except.ok jobs) ∧
    (∀ now rest offset jobs,
      micronLoop now (MicronResp.exnError :: rest) offset jobs =
        Except.ok jobs) ∧
    (∀ rest offset jobs total pre post,
      asmlLoop
        (AsmlResp.ok
          { widgets := some [{ total_item := some total,
                               content := some (pre.map some ++ none :: post) }] }
          :: rest) offset jobs =
        Except.ok (jobs ++ pre)) := by
  refine ⟨fun _ _ _ => rfl, fun _ _ _ => rfl, fun _ _ _ _ => rfl,
    fun _ _ _ _ => rfl, ?_⟩
  intro rest offset jobs total pre post
  simp [asmlLoop, asmlParsePage_malformed]

/-- C2 amended.  `add_or_update_jobs` decides insert-versus-update by
looking each incoming listing up by its `job_id` alone — the employer
plays no part in the lookup and no activity flag exists.  Not found →
a row is inserted carrying the listing's id, with `last_updated = now`
and `scraped_date` defaulting to `now` when the record omits it, and the
id is appended to the new-ids list; found → the first matching row is
overwritten in place with every field the record carries, its
`last_updated` is set to `now` and its `job_id` stays the looked-up id,
and the id is appended to the updated-ids list; the call returns both
lists with the session state. -/
theorem upsert_contract_by_external_id (now : Nat) (d : JobData)
    (rest : List JobData) (db : DB) (jid : String)
    (hid : d.job_id = Field.val jid) (hne : jid ≠ "") :
    (db.any (fun r => r.job_id == some jid) = false →
      aouLoop now (d :: rest) db =
        (jid ::
           (aouLoop now rest
             (db ++ [mkRow now (convert_job_data now d)])).1,
         (aouLoop now rest (db ++ [mkRow now (convert_job_data now d)])).2.1,
         (aouLoop now rest (db ++ [mkRow now (convert_job_data now d)])).2.2) ∧
      (mkRow now (convert_job_data now d)).job_id = some jid ∧
      (mkRow now (convert_job_data now d)).last_updated = some now ∧
      (d.scraped_date = Field.absent →
        (mkRow now (convert_job_data now d)).scraped_date = some now)) ∧
    (db.any (fun r => r.job_id == some jid) = true →
      aouLoop now (d :: rest) db =
        ((aouLoop now rest (updFirst now (convert_job_data now d) jid db)).1,
         jid ::
           (aouLoop now rest
             (updFirst now (convert_job_data now d) jid db)).2.1,
         (aouLoop now rest (updFirst now (convert_job_data now d) jid db)).2.2) ∧
      (∀ r, (updateRow now (convert_job_data now d) r).last_updated =
        some now) ∧
      (∀ r, (updateRow now (convert_job_data now d) r).job_id =
        some jid)) := by
  have hjo : d.job_id.toOpt = some jid := by rw [hid]; rfl
  constructor
  · intro hany
    refine ⟨aouLoop_cons_insert hjo hne hany, ?_, ?_, ?_⟩
    · simp [mkRow, convert_job_data, hid, Field.toOpt]
    · simp [mkRow]
    · intro hs
      simp [mkRow, convert_job_data, hs, scrapedDefault]
  · intro hany
    refine ⟨aouLoop_cons_update hjo hne hany, ?_, ?_⟩
    · intro r
      simp [updateRow]
    · intro r
      simp [updateRow, convert_job_data, hid, setF]

/-- Witness for amended C2: an insert into the empty store and an update
against the store holding `rowA`. -/
theorem upsert_contract_by_external_id_witness :
    aouLoop 1 [jdA] [] = (["1"], [], [mkRow 1 (convert_job_data 1 jdA)]) ∧
    aouLoop 2 [jdB] [rowA] =
      ([], ["1"], [updateRow 2 (convert_job_data 2 jdB) rowA]) := by
  constructor
  · rw [((upsert_contract_by_external_id 1 jdA [] [] "1" rfl
      (by decide)).1 (by decide)).1]
    rfl
  · rw [((upsert_contract_by_external_id 2 jdB [] [rowA] "1" rfl
      (by decide)).2 (by decide)).1]
    rfl

/-! #### Lemmas for upsert idempotence -/

theorem setF_setF {α : Type} (f : Field α) (o : Option α) :
    setF f (setF f o) = setF f o := by
  cases f <;> rfl

theorem setF_toOpt {α : Type} (f : Field α) :
    setF f f.toOpt = f.toOpt := by
  cases f <;> rfl

theorem setF_scrapedDefault (f : Field Nat) (now : Nat) :
    setF f (scrapedDefault now f) = scrapedDefault now f := by
  cases f <;> rfl

theorem updateRow_mkRow (now : Nat) (c : ConvData) :
    updateRow now c (mkRow now c) = mkRow now c := by
  simp [updateRow, mkRow, Row.mk.injEq, setF_toOpt, setF_scrapedDefault]

theorem updateRow_idem (now : Nat) (c : ConvData) (r : Row) :
    updateRow now c (updateRow now c r) = updateRow now c r := by
  simp [updateRow, Row.mk.injEq, setF_setF]

theorem any_eq_find?_isSome (p : Row → Bool) :
    ∀ db : DB, db.any p = (db.find? p).isSome := by
  intro db
  induction db with
  | nil => rfl
  | cons a rest ih =>
    by_cases hp : p a = true
    · simp [List.any_cons, List.find?_cons, hp]
    · simp only [Bool.not_eq_true] at hp
      simp [List.any_cons, List.find?_cons, hp, ih]

theorem find?_append_of_some {p : Row → Bool} :
    ∀ {l1 : DB} (l2 : DB) {r : Row}, l1.find? p = some r →
      (l1 ++ l2).find? p = some r := by
  intro l1
  induction l1 with
  | nil => intro l2 r h; simp [List.find?] at h
  | cons a rest ih =>
    intro l2 r h
    by_cases hp : p a = true
    · rw [List.find?_cons_of_pos _ hp] at h
      rw [List.cons_append, List.find?_cons_of_pos _ hp]
      exact h
    · rw [List.find?_cons_of_neg _ hp] at h
      rw [List.cons_append, List.find?_cons_of_neg _ hp]
      exact ih l2 h

theorem find?_append_of_none {p : Row → Bool} :
    ∀ {l1 : DB} (l2 : DB), l1.find? p = none →
      (l1 ++ l2).find? p = l2.find? p := by
  intro l1
  induction l1 with
  | nil => intro l2 _; rfl
  | cons a rest ih =>
    intro l2 h
    by_cases hp : p a = true
    · rw [List.find?_cons_of_pos _ hp] at h
      exact absurd h (by simp)
    · rw [List.find?_cons_of_neg _ hp] at h
      rw [List.cons_append, List.find?_cons_of_neg _ hp]
      exact ih l2 h

theorem find?_updFirst_self {now : Nat} {c : ConvData} {jid : String}
    (hc : c.job_id = Field.val jid) :
    ∀ {db : DB} {r0 : Row},
      db.find? (fun r => r.job_id == some jid) = some r0 →
      (updFirst now c jid db).find? (fun r => r.job_id == some jid) =
        some (updateRow now c r0) := by
  intro db
  induction db with
  | nil => intro r0 h; simp [List.find?] at h
  | cons a rest ih =>
    intro r0 h
    by_cases ha : a.job_id = some jid
    · rw [List.find?_cons_of_pos _ (by simp [ha])] at h
      rw [Option.some.injEq] at h
      subst h
      simp only [updFirst, ha, beq_self_eq_true, if_true]
      rw [List.find?_cons_of_pos _ (by simp [updateRow, hc, setF])]
    · have hb : (a.job_id == some jid) = false := by simp [ha]
      rw [List.find?_cons_of_neg _ (by simp [ha])] at h
      simp only [updFirst, hb, Bool.false_eq_true, if_false]
      rw [List.find?_cons_of_neg _ (by simp [ha])]
      exact ih h

theorem find?_updFirst_other {now : Nat} {c : ConvData} {jid2 : String}
    (hc : c.job_id = Field.val jid2) {jid : String} (hne : jid ≠ jid2) :
    ∀ db : DB,
      (updFirst now c jid2 db).find? (fun r => r.job_id == some jid) =
        db.find? (fun r => r.job_id == some jid) := by
  intro db
  induction db with
  | nil => rfl
  | cons a rest ih =>
    by_cases ha : a.job_id = some jid2
    · have hpa : (a.job_id == some jid) = false := by
        simp [ha, Ne.symm hne]
      simp only [updFirst, ha, beq_self_eq_true, if_true]
      rw [List.find?_cons_of_neg _
        (by simp [updateRow, hc, setF, Ne.symm hne]),
        List.find?_cons_of_neg _ (by simp [hpa])]
    · have hb : (a.job_id == some jid2) = false := by simp [ha]
      simp only [updFirst, hb, Bool.false_eq_true, if_false]
      simp only [List.find?_cons]
      rw [ih]

theorem find?_aouLoop_untouched (now : Nat) :
    ∀ (rest : List JobData) (db : DB) (jid : String),
      jid ∉ truthyIds rest →
      ((aouLoop now rest db).2.2).find? (fun r => r.job_id == some jid) =
        db.find? (fun r => r.job_id == some jid) := by
  intro rest
  induction rest with
  | nil => intro db jid _; rfl
  | cons e tail ih =>
    intro db jid hnot
    cases hjo : e.job_id.toOpt with
    | none =>
      rw [aouLoop_cons_skip (Or.inl hjo)]
      rw [truthyIds_cons_skip (Or.inl hjo)] at hnot
      exact ih db jid hnot
    | some jid2 =>
      by_cases hne2 : jid2 = ""
      · subst hne2
        rw [aouLoop_cons_skip (Or.inr hjo)]
        rw [truthyIds_cons_skip (Or.inr hjo)] at hnot
        exact ih db jid hnot
      · have hcid : (convert_job_data now e).job_id = Field.val jid2 :=
          toOpt_val hjo
        rw [truthyIds_cons hjo hne2] at hnot
        have hnejid : jid ≠ jid2 := fun h => hnot (by rw [h]; simp)
        have hnot' : jid ∉ truthyIds tail := fun h => hnot (by simp [h])
        by_cases hany : db.any (fun r => r.job_id == some jid2) = true
        · rw [aouLoop_cons_update hjo hne2 hany]
          rw [ih _ jid hnot']
          exact find?_updFirst_other hcid hnejid db
        · rw [aouLoop_cons_insert hjo hne2 (by simpa using hany)]
          rw [ih _ jid hnot']
          have hmk : ((mkRow now (convert_job_data now e)).job_id ==
              some jid) = false := by
            simp [mkRow, hcid, Field.toOpt, Ne.symm hnejid]
          cases hdb : db.find? (fun r => r.job_id == some jid) with
          | some r => exact find?_append_of_some _ hdb
          | none =>
            rw [find?_append_of_none _ hdb]
            rw [List.find?_cons_of_neg _ (by simp [hmk])]
            rfl

theorem updFirst_eq_self {now : Nat} {c : ConvData} {jid : String} :
    ∀ {db : DB} {r : Row},
      db.find? (fun r => r.job_id == some jid) = some r →
      updateRow now c r = r → updFirst now c jid db = db := by
  intro db
  induction db with
  | nil => intro r h _; simp [List.find?] at h
  | cons a rest ih =>
    intro r h hfix
    by_cases ha : a.job_id = some jid
    · rw [List.find?_cons_of_pos _ (by simp [ha])] at h
      rw [Option.some.injEq] at h
      subst h
      simp only [updFirst, ha, beq_self_eq_true, if_true, hfix]
    · have hb : (a.job_id == some jid) = false := by simp [ha]
      rw [List.find?_cons_of_neg _ (by simp [ha])] at h
      simp only [updFirst, hb, Bool.false_eq_true, if_false]
      rw [ih h hfix]

theorem aouLoop_idem (now : Nat) :
    ∀ (jobs : List JobData) (db : DB),
      (∀ d ∈ jobs, ∃ jid, d.job_id = Field.val jid ∧ jid ≠ "") →
      (truthyIds jobs).Nodup →
      aouLoop now jobs ((aouLoop now jobs db).2.2) =
        ([], truthyIds jobs, (aouLoop now jobs db).2.2) := by
  intro jobs
  induction jobs with
  | nil => intro db _ _; simp [aouLoop, truthyIds]
  | cons d rest ih =>
    intro db hT hN
    obtain ⟨jid, hdid, hne⟩ := hT d (List.mem_cons_self d rest)
    have hjo : d.job_id.toOpt = some jid := by rw [hdid]; rfl
    have hcid : (convert_job_data now d).job_id = Field.val jid := hdid
    have hTr : ∀ d' ∈ rest, ∃ jid2, d'.job_id = Field.val jid2 ∧ jid2 ≠ "" :=
      fun d' hm => hT d' (List.mem_cons_of_mem d hm)
    rw [truthyIds_cons hjo hne] at hN
    have hjid_not : jid ∉ truthyIds rest := (List.nodup_cons.mp hN).1
    have hNr : (truthyIds rest).Nodup := (List.nodup_cons.mp hN).2
    by_cases hany : db.any (fun r => r.job_id == some jid) = true
    · obtain ⟨r0, hr0⟩ : ∃ r0, db.find? (fun r => r.job_id == some jid) =
          some r0 := by
        rw [any_eq_find?_isSome] at hany
        exact Option.isSome_iff_exists.mp hany
      have hfind1 :
          ((aouLoop now rest
            (updFirst now (convert_job_data now d) jid db)).2.2).find?
              (fun r => r.job_id == some jid) =
            some (updateRow now (convert_job_data now d) r0) := by
        rw [find?_aouLoop_untouched now rest _ jid hjid_not]
        exact find?_updFirst_self hcid hr0
      have hany1 : ((aouLoop now rest
          (updFirst now (convert_job_data now d) jid db)).2.2).any
            (fun r => r.job_id == some jid) = true := by
        rw [any_eq_find?_isSome, hfind1]
        rfl
      have hstate : (aouLoop now (d :: rest) db).2.2 =
          (aouLoop now rest
            (updFirst now (convert_job_data now d) jid db)).2.2 := by
        rw [aouLoop_cons_update hjo hne hany]
      rw [hstate, aouLoop_cons_update hjo hne hany1,
        updFirst_eq_self hfind1 (updateRow_idem now _ r0), ih _ hTr hNr,
        truthyIds_cons hjo hne]
    · have hanyf : db.any (fun r => r.job_id == some jid) = false := by
        rwa [Bool.not_eq_true] at hany
      have hfindDb : db.find? (fun r => r.job_id == some jid) = none := by
        rw [any_eq_find?_isSome] at hanyf
        exact Option.not_isSome_iff_eq_none.mp (by simp [hanyf])
      have hfind1 :
          ((aouLoop now rest
            (db ++ [mkRow now (convert_job_data now d)])).2.2).find?
              (fun r => r.job_id == some jid) =
            some (mkRow now (convert_job_data now d)) := by
        rw [find?_aouLoop_untouched now rest _ jid hjid_not]
        rw [find?_append_of_none _ hfindDb]
        rw [List.find?_cons_of_pos _ (by simp [mkRow, hcid, Field.toOpt])]
      have hany1 : ((aouLoop now rest
          (db ++ [mkRow now (convert_job_data now d)])).2.2).any
            (fun r => r.job_id == some jid) = true := by
        rw [any_eq_find?_isSome, hfind1]
        rfl
      have hstate : (aouLoop now (d :: rest) db).2.2 =
          (aouLoop now rest
            (db ++ [mkRow now (convert_job_data now d)])).2.2 := by
        rw [aouLoop_cons_insert hjo hne hanyf]
      rw [hstate, aouLoop_cons_update hjo hne hany1,
        updFirst_eq_self hfind1 (updateRow_mkRow now _), ih _ hTr hNr,
        truthyIds_cons hjo hne]

/-- C5.  Upsert is idempotent: for a batch of listings with distinct,
truthy external ids, a second `add_or_update_jobs` call with the
identical batch at the same clock value leaves the persisted state of
the first call unchanged, inserts nothing (`new_ids = []`, so no
duplicate rows), and returns as `updated_ids` the full batch of ids. -/
theorem upsert_idempotent (now : Nat) (jobs : List JobData) (db : DB)
    (n u : List String) (db1 : DB)
    (hT : ∀ d ∈ jobs, ∃ jid, d.job_id = Field.val jid ∧ jid ≠ "")
    (hN : (truthyIds jobs).Nodup)
    (h1 : add_or_update_jobs now jobs db = Except.ok (n, u, db1)) :
    add_or_update_jobs now jobs db1 =
      Except.ok ([], truthyIds jobs, db1) := by
  obtain ⟨hdb1, hvalid⟩ := aou_ok_state h1
  subst hdb1
  have hloop := aouLoop_idem now jobs db hT hN
  simp [add_or_update_jobs, hloop, hvalid]

/-- Witness for C5: the second upsert of `[jdA]` against the state it
produced returns no new ids, the full batch as updated, and the same
state. -/
theorem upsert_idempotent_witness :
    add_or_update_jobs 1 [jdA] [rowA] =
      Except.ok ([], truthyIds [jdA], [rowA]) :=
  upsert_idempotent 1 [jdA] [] ["1"] [] [rowA]
    (by
      intro d hd
      rw [List.mem_singleton] at hd
      subst hd
      exact ⟨"1", rfl, by decide⟩)
    (by decide) rfl

end JobDB
